import Mathlib

/-!
Verification of the lt-3 keyboard firmware (src/src/main.rs) against its
specification.  The firmware wires together a 1-row x 2-column switch
matrix, a debouncer with threshold 5, a single-layer layout table
`LAYERS = [[k(LShift), k(LCtrl)]]`, HID report rendering, and a
lock-mediated USB report submission routine `send_report`.

The debouncing, layout and report-rendering algorithms live in the
external `keyberon` crate, which is not part of this repository's
sources; those components are modelled from the specification
(sections 4.2-4.4), as marked on each definition.  The tick-handler
structure, the `LAYERS` table, the `Infallible` pin error type and the
lock/retry structure of `send_report` are embedded directly from
`src/src/main.rs`.
-/

namespace LT3

/-- The debounce threshold passed to `Debouncer::new` in `init`
(`src/src/main.rs` line 134): 5 ticks. -/
def debounceThreshold : Nat := 5

/-- Modelled from the spec (§4.2, §3 DebounceState): per-key debouncer
state, a latched stable bit plus a counter of consecutive ticks where
the raw sample differed from the stable value.  The keyberon
`Debouncer` itself is not in src/. -/
structure DKey where
  stable : Bool
  count : Nat
deriving DecidableEq

/-- Modelled from the spec (§4.2): one debounce step for one key.
When raw == stable, reset the counter to 0.  When raw != stable,
increment the counter; once the counter reaches the threshold (5),
flip the stable bit, emit the corresponding event (`some raw`, press
when the new stable value is `true`), and reset the counter. -/
def dstep (s : DKey) (raw : Bool) : DKey × Option Bool :=
  if raw = s.stable then ({ s with count := 0 }, none)
  else if s.count + 1 < debounceThreshold then ({ s with count := s.count + 1 }, none)
  else ({ stable := raw, count := 0 }, some raw)

/-- Run the per-key debouncer over a list of raw samples, collecting the
per-sample event output. -/
def drun (s : DKey) : List Bool → DKey × List (Option Bool)
  | [] => (s, [])
  | r :: rs =>
    let p := dstep s r
    let q := drun p.1 rs
    (q.1, p.2 :: q.2)

/-- The key codes this development needs: the two codes appearing in the
firmware's `LAYERS` table (LShift, LCtrl) plus seven ordinary letter
codes used to exercise the 6-slot report capacity. -/
inductive KeyCode where
  | LCtrl
  | LShift
  | A
  | B
  | C
  | D
  | E
  | F
  | G
deriving DecidableEq

/-- The USB HID usage id of each key code (letters 0x04.., modifiers
0xE0..). -/
def KeyCode.code : KeyCode → Nat
  | .A => 4
  | .B => 5
  | .C => 6
  | .D => 7
  | .E => 8
  | .F => 9
  | .G => 10
  | .LCtrl => 0xE0
  | .LShift => 0xE1

/-- A key code is a modifier when its usage id lies in 0xE0..0xE7. -/
def KeyCode.isModifier (k : KeyCode) : Bool :=
  0xE0 ≤ k.code && k.code ≤ 0xE7

/-- The bit a modifier key contributes to report byte 0
(bit 0 = LeftCtrl, bit 1 = LeftShift, ...). -/
def KeyCode.modifierBit (k : KeyCode) : Nat :=
  1 <<< (k.code - 0xE0)

/-- Modelled from the spec (§3 Action): actions are key codes,
transparent fall-through, or layer shifts; this firmware's table uses
only key codes. -/
inductive Action where
  | key (k : KeyCode)
  | transparent
  | layerShift (n : Nat)
deriving DecidableEq

/-- The firmware's compiled layout table (`src/src/main.rs` lines
61-66): one layer, one row, two columns: `[[k(LShift), k(LCtrl)]]`. -/
def LAYERS : List (List (List Action)) :=
  [[[Action.key KeyCode.LShift, Action.key KeyCode.LCtrl]]]

/-- Debounce events, tagged press/release with the matrix position. -/
inductive Event where
  | press (r c : Nat)
  | release (r c : Nat)
deriving DecidableEq

/-- Row-major index of the key an event refers to (2 columns). -/
def keyIdx : Event → Nat
  | .press r c => 2 * r + c
  | .release r c => 2 * r + c

/-- Modelled from the spec (§4.3): layout-engine state, a layer stack
(bottom layer 0 always present), the insertion-ordered held-key list,
and a monotonic tick counter.  The keyberon `Layout` itself is not in
src/. -/
structure LayoutState where
  stack : List Nat
  held : List KeyCode
  ticks : Nat
deriving DecidableEq

/-- Look up the action of layer `l` at position (r, c) in `LAYERS`. -/
def lookupAction (l r c : Nat) : Option Action :=
  (LAYERS.get? l).bind fun rows => (rows.get? r).bind fun row => row.get? c

/-- Modelled from the spec (§4.3): resolve (r, c) against the topmost
non-transparent layer of the stack. -/
def resolveAction : List Nat → Nat → Nat → Option Action
  | [], _, _ => none
  | l :: rest, r, c =>
    match lookupAction l r c with
    | some Action.transparent => resolveAction rest r c
    | some a => some a
    | none => none

/-- Modelled from the spec (§4.3): apply one event to the layout
engine.  On Press of a key-code action, insert into the held list
(no-op if already held); on Release, remove it; layer shifts push/pop
the stack and do not touch held keys.  Returns the new state and the
key codes reported for this invocation (the held list), matching
`layout.event(event)` returning an iterator of key codes. -/
def layoutEvent (s : LayoutState) (e : Event) : LayoutState × List KeyCode :=
  match e with
  | .press r c =>
    match resolveAction s.stack r c with
    | some (Action.key k) =>
      let held := if k ∈ s.held then s.held else s.held ++ [k]
      ({ s with held := held }, held)
    | some (Action.layerShift n) => ({ s with stack := n :: s.stack }, s.held)
    | _ => (s, s.held)
  | .release r c =>
    match resolveAction s.stack r c with
    | some (Action.key k) =>
      let held := s.held.filter (fun x => x ≠ k)
      ({ s with held := held }, held)
    | some (Action.layerShift n) =>
      ({ s with stack := s.stack.erase n }, s.held)
    | _ => (s, s.held)

/-- Modelled from the spec (§4.3): `layout.tick()` advances the
time-based state (the internal tick counter; this instance has no
hold/tap actions, so no transition is ever pending) and reports the
current held keys. -/
def layoutTick (s : LayoutState) : LayoutState × List KeyCode :=
  ({ s with ticks := s.ticks + 1 }, s.held)

/-- First-seen deduplication, with an accumulator of codes already
seen: a code is kept exactly at its first occurrence. -/
def dedupFirstAux (seen : List Nat) : List Nat → List Nat
  | [] => []
  | a :: l =>
    if a ∈ seen then dedupFirstAux seen l
    else a :: dedupFirstAux (a :: seen) l

/-- First-seen deduplication of a code list: keeps the first occurrence
of each code, in order. -/
def dedupFirst (l : List Nat) : List Nat := dedupFirstAux [] l

/-- The usage ids of the non-modifier keys, in first-seen order. -/
def nonmodCodes (keys : List KeyCode) : List Nat :=
  (keys.filter (fun k => !k.isModifier)).map KeyCode.code

/-- Byte 0 of the report: the OR of the modifier bits of all modifier
keys in the list. -/
def modifierMask (keys : List KeyCode) : Nat :=
  keys.foldl (fun m k => if k.isModifier then m ||| k.modifierBit else m) 0

/-- The up-to-six non-modifier slots: distinct non-modifier usage ids
in first-seen order, truncated to 6. -/
def slots (keys : List KeyCode) : List Nat :=
  (dedupFirst (nonmodCodes keys)).take 6

/-- Modelled from the spec (§4.4 ReportEmitter, §3 HidReport): render a
key-code list into the 8-byte HID report: byte 0 the modifier bitmask,
byte 1 reserved zero, bytes 2-7 the first six distinct non-modifier
codes in first-seen order, zero-padded; presses beyond the six slots
are dropped.  The keyberon `KbHidReport` collector itself is not in
src/. -/
def render (keys : List KeyCode) : List Nat :=
  let s := slots keys
  modifierMask keys :: 0 :: (s ++ List.replicate (6 - s.length) 0)

/-- The USB transport's current-report slot: the report last installed
with `set_keyboard_report`. -/
structure Transport where
  stored : List Nat
deriving DecidableEq

/-- Modelled from the spec (§4.5 report submission protocol): install
the freshly built report into the transport's current-report slot; the
returned flag tells whether it differs from the report previously
stored there (the keyberon `set_keyboard_report`, not in src/). -/
def setKeyboardReport (r : List Nat) (t : Transport) : Bool × Transport :=
  (decide (r ≠ t.stored), { stored := r })

/-- Result of one transport write attempt: `ok n` means `n` bytes were
accepted (`ok 0` is the busy/flow-control signal), `err` a USB error. -/
inductive WriteRes where
  | ok (n : Nat)
  | err
deriving DecidableEq

/-- One critical section (one `usb_class.lock(..)` call) of
`send_report` (`src/src/main.rs` lines 165-171): either the
`set_keyboard_report` call, or one write attempt with its result. -/
inductive LockSec where
  | setReportSec
  | writeSec (res : WriteRes)
deriving DecidableEq

/-- Whether a critical section is a write attempt. -/
def isWriteSec : LockSec → Bool
  | .setReportSec => false
  | .writeSec _ => true

/-- The retry loop `while let Ok(0) = usb_class.lock(|k| k.write(..)) {}`
of `send_report`: each iteration acquires the lock, attempts the write,
and releases the lock; it continues exactly while the transport returns
`Ok(0)`.  `responses i` is the transport's answer to the i-th attempt;
`fuel` bounds the modelled unrolling (the code itself has no bound). -/
def writeTrace (responses : Nat → WriteRes) : Nat → Nat → List LockSec
  | 0, _ => []
  | fuel + 1, i =>
    match responses i with
    | .ok 0 => LockSec.writeSec (WriteRes.ok 0) :: writeTrace responses fuel (i + 1)
    | r => [LockSec.writeSec r]

/-- `send_report` (`src/src/main.rs` lines 165-171): build the report
from the key-code iterator, install it under the lock, and only when
the installation reports a change, run the write-retry loop; each
attempt is its own lock acquisition.  Returns the new transport state
and the trace of critical sections. -/
def send_report (keys : List KeyCode) (t : Transport) (responses : Nat → WriteRes)
    (fuel : Nat) : Transport × List LockSec :=
  let report := render keys
  let c := setKeyboardReport report t
  if c.1 then (c.2, LockSec.setReportSec :: writeTrace responses fuel 0)
  else (c.2, [LockSec.setReportSec])

/-- The raw matrix snapshot: 1 row x 2 columns, keys (0,0) and (0,1). -/
abbrev Grid := Bool × Bool

/-- Debouncer state for the whole matrix: one per-key state for each of
the two keys. -/
abbrev DebState := DKey × DKey

/-- Turn a per-key debouncer output bit into the corresponding event at
(r, c): `true` is a press, `false` a release. -/
def evAt (r c : Nat) (b : Bool) : Event :=
  cond b (Event.press r c) (Event.release r c)

/-- `debouncer.events(raw)`: step both keys and emit their events in
fixed row-major key order, (0,0) before (0,1). -/
def debEvents (d : DebState) (raw : Grid) : DebState × List Event :=
  let p0 := dstep d.1 raw.1
  let p1 := dstep d.2 raw.2
  ((p0.1, p1.1), (p0.2.map (evAt 0 0)).toList ++ (p1.2.map (evAt 0 1)).toList)

/-- One pipeline operation performed on the layout engine by the tick
handler: applying a debounce event, or the end-of-tick `layout.tick()`. -/
inductive PipeOp where
  | applyEvent (e : Event)
  | layoutTickOp
deriving DecidableEq

/-- Install a rendered report into the transport (the
`set_keyboard_report` part of `send_report`; the write loop does not
change the modelled transport state).  Returns the new transport and
the built report. -/
def submitReport (keys : List KeyCode) (t : Transport) : Transport × List Nat :=
  let r := render keys
  ((setKeyboardReport r t).2, r)

/-- The event loop of the tick handler (`src/src/main.rs` lines
154-160): for each debounce event, apply it to the layout engine and
send a report of the returned key codes.  Returns the final layout
state and transport, the reports built, and the pipeline operations
performed, in order. -/
def applyEvents : LayoutState → Transport → List Event →
    LayoutState × Transport × List (List Nat) × List PipeOp
  | ls, tr, [] => (ls, tr, [], [])
  | ls, tr, e :: es =>
    let le := layoutEvent ls e
    let sub := submitReport le.2 tr
    let rest := applyEvents le.1 sub.1 es
    (rest.1, rest.2.1, sub.2 :: rest.2.2.1, PipeOp.applyEvent e :: rest.2.2.2)

/-- The whole firmware state touched by the tick handler. -/
structure SysState where
  deb : DebState
  layout : LayoutState
  usb : Transport
deriving DecidableEq

/-- Everything one tick-handler invocation produces. -/
structure TickOut where
  state : SysState
  events : List Event
  reports : List (List Nat)
  ops : List PipeOp
deriving DecidableEq

/-- The tick handler `tick` (`src/src/main.rs` lines 150-162) on a raw
matrix snapshot: run the debouncer, apply each event to the layout
engine (sending a report per event), then `layout.tick()` and a final
report. -/
def processTick (st : SysState) (raw : Grid) : TickOut :=
  let de := debEvents st.deb raw
  let ae := applyEvents st.layout st.usb de.2
  let lt := layoutTick ae.1
  let sub := submitReport lt.2 ae.2.1
  { state := { deb := de.1, layout := lt.1, usb := sub.1 },
    events := de.2,
    reports := ae.2.2.1 ++ [sub.2],
    ops := ae.2.2.2 ++ [PipeOp.layoutTickOp] }

/-- The pin error type of the matrix pins (`src/src/main.rs` lines
45-59): `core::convert::Infallible`, which has no values. -/
inductive Infallible : Type

/-- The tick handler fed the result of `matrix.get()`: the scan result
carries the `Infallible` error type, so only the `ok` branch exists
(`matrix.get().unwrap()` can never observe an error). -/
def tickHandler (st : SysState) (scanRes : Except Infallible Grid) : TickOut :=
  match scanRes with
  | .ok g => processTick st g
  | .error e => nomatch e

/-- The initial state built by `init` (`src/src/main.rs` lines
130-137): `Debouncer::new(default, default, 5)` (all keys stable
released, counters 0), a fresh layout on `LAYERS` (stack = bottom
layer, nothing held), and a transport holding the all-zero default
report. -/
def initState : SysState :=
  { deb := (⟨false, 0⟩, ⟨false, 0⟩),
    layout := { stack := [0], held := [], ticks := 0 },
    usb := { stored := List.replicate 8 0 } }

/-- Run `n` consecutive ticks on a constant raw snapshot, collecting
each tick's output. -/
def runScenario : Nat → SysState → Grid → List TickOut
  | 0, _, _ => []
  | n + 1, st, raw =>
    let out := processTick st raw
    out :: runScenario n out.state raw

/-- The states the firmware can reach: the initial state, then any
number of tick-handler invocations on arbitrary raw snapshots. -/
inductive Reaches : SysState → Prop
  | init : Reaches initState
  | step (st : SysState) (raw : Grid) : Reaches st → Reaches (processTick st raw).state

/-- A transport that is busy exactly on the first write attempt and
accepts the second. -/
def busyOnce : Nat → WriteRes :=
  fun i => if i = 0 then WriteRes.ok 0 else WriteRes.ok 8

/-- Formalisation of claim C3 as stated: all (possibly retried) write
attempts of `send_report` happen inside one critical section, i.e. the
trace never contains more than one write lock acquisition. -/
def sameCriticalSectionRetry : Prop :=
  ∀ (keys : List KeyCode) (t : Transport) (responses : Nat → WriteRes) (fuel : Nat),
    ((send_report keys t responses fuel).2.filter isWriteSec).length ≤ 1

/-- All keys of a list are modifiers. -/
def allMod (keys : List KeyCode) : Prop := ∀ k ∈ keys, k.isModifier = true

/-! ## Helper lemmas -/

/-- Membership in the first-seen deduplication with an accumulator. -/
theorem mem_dedupFirstAux (c : Nat) :
    ∀ (l seen : List Nat), c ∈ dedupFirstAux seen l ↔ (c ∈ l ∧ c ∉ seen) := by
  intro l
  induction l with
  | nil =>
    intro seen
    simp [dedupFirstAux]
  | cons a t ih =>
    intro seen
    rw [dedupFirstAux]
    split
    · next ha =>
      rw [ih seen, List.mem_cons]
      constructor
      · rintro ⟨hct, hcs⟩
        exact ⟨Or.inr hct, hcs⟩
      · rintro ⟨hca | hct, hcs⟩
        · exact absurd (hca ▸ ha) hcs
        · exact ⟨hct, hcs⟩
    · next ha =>
      simp only [List.mem_cons, ih (a :: seen)]
      constructor
      · rintro (rfl | ⟨hct, hcs⟩)
        · exact ⟨Or.inl rfl, ha⟩
        · exact ⟨Or.inr hct, fun hh => hcs (Or.inr hh)⟩
      · rintro ⟨hca | hct, hcs⟩
        · exact Or.inl hca
        · by_cases hca : c = a
          · exact Or.inl hca
          · refine Or.inr ⟨hct, ?_⟩
            rintro (h1 | h1)
            · exact hca h1
            · exact hcs h1

/-- Membership in the first-seen deduplication. -/
theorem mem_dedupFirst (l : List Nat) (c : Nat) : c ∈ dedupFirst l ↔ c ∈ l := by
  simp [dedupFirst, mem_dedupFirstAux]

/-- The first-seen deduplication has no duplicates. -/
theorem nodup_dedupFirstAux :
    ∀ (l seen : List Nat), (dedupFirstAux seen l).Nodup := by
  intro l
  induction l with
  | nil =>
    intro seen
    simp [dedupFirstAux]
  | cons a t ih =>
    intro seen
    rw [dedupFirstAux]
    split
    · exact ih seen
    · rw [List.nodup_cons]
      refine ⟨?_, ih (a :: seen)⟩
      intro hmem
      exact ((mem_dedupFirstAux a t (a :: seen)).mp hmem).2 (List.mem_cons_self a seen)

/-- The first-seen deduplication has no duplicates. -/
theorem nodup_dedupFirst (l : List Nat) : (dedupFirst l).Nodup :=
  nodup_dedupFirstAux l []

/-- For a member of a list, membership in a length-n front segment is
exactly having first-occurrence index below n. -/
theorem mem_take_iff_indexOf :
    ∀ (l : List Nat) (c : Nat), c ∈ l → ∀ n, (c ∈ l.take n ↔ l.indexOf c < n) := by
  intro l
  induction l with
  | nil =>
    intro c hc
    simp at hc
  | cons a t ih =>
    intro c hc n
    cases n with
    | zero => simp
    | succ m =>
      by_cases hca : c = a
      · subst hca
        simp [List.take_succ_cons, List.indexOf_cons_self]
      · have hct : c ∈ t := by
          rcases List.mem_cons.mp hc with h | h
          · exact absurd h hca
          · exact h
        rw [List.take_succ_cons, List.mem_cons,
          List.indexOf_cons_ne t (Ne.symm hca), Nat.succ_lt_succ_iff,
          ← ih c hct m]
        simp [hca]

/-- A rendered report is always exactly 8 bytes. -/
theorem render_length (keys : List KeyCode) : (render keys).length = 8 := by
  have hs : (slots keys).length ≤ 6 := by
    simp [slots, List.length_take]
  simp only [render, List.length_cons, List.length_append, List.length_replicate]
  omega

/-- Every element of a write-retry trace is a write critical section. -/
theorem writeTrace_all_write (responses : Nat → WriteRes) :
    ∀ (fuel i : Nat), ∀ s ∈ writeTrace responses fuel i, isWriteSec s = true := by
  intro fuel
  induction fuel with
  | zero =>
    intro i s hs
    simp [writeTrace] at hs
  | succ f ih =>
    intro i s hs
    rw [writeTrace] at hs
    split at hs
    · rcases List.mem_cons.mp hs with h | h
      · subst h
        rfl
      · exact ih (i + 1) s h
    · rw [List.mem_singleton.mp hs]
      rfl

/-- With positive fuel, the write-retry trace contains at least one
attempt. -/
theorem writeTrace_ne_nil (responses : Nat → WriteRes) (fuel i : Nat) (h : 0 < fuel) :
    writeTrace responses fuel i ≠ [] := by
  cases fuel with
  | zero => omega
  | succ f =>
    rw [writeTrace]
    split <;> simp

/-- When the transport is busy for the first `n` attempts and answers
otherwise on attempt `n`, the loop performs exactly `n + 1` write
attempts. -/
theorem writeTrace_first_accept (responses : Nat → WriteRes) :
    ∀ (n fuel i : Nat), n < fuel → (∀ j, j < n → responses (i + j) = WriteRes.ok 0) →
      responses (i + n) ≠ WriteRes.ok 0 →
      (writeTrace responses fuel i).length = n + 1 := by
  intro n
  induction n with
  | zero =>
    intro fuel i hf _ hacc
    cases fuel with
    | zero => omega
    | succ f =>
      rw [writeTrace]
      have hacc2 : responses i ≠ WriteRes.ok 0 := by simpa using hacc
      split
      · next heq => exact absurd heq hacc2
      · simp
  | succ m ih =>
    intro fuel i hf hbusy hacc
    cases fuel with
    | zero => omega
    | succ f =>
      have h0 : responses i = WriteRes.ok 0 := by simpa using hbusy 0 (Nat.succ_pos m)
      rw [writeTrace, h0]
      simp only [List.length_cons]
      have hrec := ih f (i + 1) (by omega)
        (fun j hj => by
          have hb := hbusy (j + 1) (by omega)
          have he : i + 1 + j = i + (j + 1) := by omega
          rw [he]
          exact hb)
        (by
          have he : i + 1 + m = i + (m + 1) := by omega
          rw [he]
          exact hacc)
      omega

/-- On a transport that stays busy forever, the retry loop runs as long
as its unrolling allows: no retry cap ever stops it. -/
theorem writeTrace_always_busy (responses : Nat → WriteRes)
    (h : ∀ j, responses j = WriteRes.ok 0) :
    ∀ (fuel i : Nat), writeTrace responses fuel i
      = List.replicate fuel (LockSec.writeSec (WriteRes.ok 0)) := by
  intro fuel
  induction fuel with
  | zero => intro i; rfl
  | succ f ih =>
    intro i
    rw [writeTrace, h i, List.replicate_succ, ih]

/-- The event loop performs exactly one apply-event operation per
debounce event, in the events' order. -/
theorem applyEvents_ops (evs : List Event) :
    ∀ (ls : LayoutState) (tr : Transport),
      (applyEvents ls tr evs).2.2.2 = evs.map PipeOp.applyEvent := by
  induction evs with
  | nil =>
    intro ls tr
    rfl
  | cons e es ih =>
    intro ls tr
    simp [applyEvents, ih]

/-- Every entry of the compiled `LAYERS` table is one of the two
modifier key-code actions. -/
theorem lookup_vals (l r c : Nat) (a : Action) (h : lookupAction l r c = some a) :
    a = Action.key KeyCode.LShift ∨ a = Action.key KeyCode.LCtrl := by
  cases l with
  | succ ll =>
    rw [show lookupAction (ll + 1) r c = none from rfl] at h
    exact Option.noConfusion h
  | zero =>
    cases r with
    | succ rr =>
      rw [show lookupAction 0 (rr + 1) c = none from rfl] at h
      exact Option.noConfusion h
    | zero =>
      cases c with
      | zero =>
        rw [show lookupAction 0 0 0 = some (Action.key KeyCode.LShift) from rfl] at h
        exact Or.inl (Option.some.inj h).symm
      | succ c1 =>
        cases c1 with
        | zero =>
          rw [show lookupAction 0 0 1 = some (Action.key KeyCode.LCtrl) from rfl] at h
          exact Or.inr (Option.some.inj h).symm
        | succ c2 =>
          rw [show lookupAction 0 0 (c2 + 2) = none from rfl] at h
          exact Option.noConfusion h

/-- Any key-code action the layout resolves is a modifier key. -/
theorem resolve_key_isModifier :
    ∀ (stack : List Nat) (r c : Nat) (k : KeyCode),
      resolveAction stack r c = some (Action.key k) → k.isModifier = true := by
  intro stack
  induction stack with
  | nil =>
    intro r c k h
    simp [resolveAction] at h
  | cons l rest ih =>
    intro r c k h
    rw [resolveAction] at h
    rcases hl : lookupAction l r c with _ | a
    · rw [hl] at h
      exact Option.noConfusion h
    · cases a with
      | transparent =>
        rw [hl] at h
        exact ih r c k h
      | key k2 =>
        rw [hl] at h
        have hk : Action.key k2 = Action.key k := Option.some.inj h
        injection hk with hk2
        subst hk2
        rcases lookup_vals l r c (Action.key k2) hl with h1 | h1 <;>
          (injection h1 with h2; subst h2; rfl)
      | layerShift n =>
        rw [hl] at h
        exact Action.noConfusion (Option.some.inj h)

/-- Applying one event to a modifier-only held list keeps it and the
reported key-code list modifier-only. -/
theorem layoutEvent_allMod (ls : LayoutState) (e : Event) (h : allMod ls.held) :
    allMod (layoutEvent ls e).1.held ∧ allMod (layoutEvent ls e).2 := by
  cases e with
  | press r c =>
    simp only [layoutEvent]
    rcases hr : resolveAction ls.stack r c with _ | a
    · exact ⟨h, h⟩
    · cases a with
      | transparent => exact ⟨h, h⟩
      | key k =>
        have hk := resolve_key_isModifier ls.stack r c k hr
        by_cases hmem : k ∈ ls.held
        · simp only [hmem, if_pos]
          exact ⟨h, h⟩
        · simp only [hmem, if_neg, not_false_iff]
          have happ : allMod (ls.held ++ [k]) := by
            intro x hx
            rcases List.mem_append.mp hx with h1 | h1
            · exact h x h1
            · rw [List.mem_singleton.mp h1]
              exact hk
          exact ⟨happ, happ⟩
      | layerShift n => exact ⟨h, h⟩
  | release r c =>
    simp only [layoutEvent]
    rcases hr : resolveAction ls.stack r c with _ | a
    · exact ⟨h, h⟩
    · cases a with
      | transparent => exact ⟨h, h⟩
      | key k =>
        have hfil : allMod (ls.held.filter (fun x => x ≠ k)) := by
          intro x hx
          exact h x (List.mem_of_mem_filter hx)
        exact ⟨hfil, hfil⟩
      | layerShift n => exact ⟨h, h⟩

/-- A report rendered from a modifier-only key list is the modifier
mask followed by seven zero bytes. -/
theorem render_mod (keys : List KeyCode) (h : allMod keys) :
    (render keys).drop 1 = List.replicate 7 0 := by
  have hf : keys.filter (fun k => !k.isModifier) = [] := by
    rw [List.filter_eq_nil_iff]
    intro k hk
    simp [h k hk]
  have hnm : nonmodCodes keys = [] := by simp [nonmodCodes, hf]
  simp [render, slots, hnm, dedupFirst, dedupFirstAux]

/-- The event loop keeps the held list modifier-only and every report
it builds has bytes 1-7 zero. -/
theorem applyEvents_mod (evs : List Event) :
    ∀ (ls : LayoutState) (tr : Transport), allMod ls.held →
      allMod (applyEvents ls tr evs).1.held ∧
      ∀ rep ∈ (applyEvents ls tr evs).2.2.1, rep.drop 1 = List.replicate 7 0 := by
  induction evs with
  | nil =>
    intro ls tr h
    exact ⟨h, by simp [applyEvents]⟩
  | cons e es ih =>
    intro ls tr h
    have he := layoutEvent_allMod ls e h
    have ihr := ih (layoutEvent ls e).1 (submitReport (layoutEvent ls e).2 tr).1 he.1
    constructor
    · simpa [applyEvents] using ihr.1
    · intro rep hrep
      simp only [applyEvents] at hrep
      rcases List.mem_cons.mp hrep with h1 | h1
      · rw [h1]
        exact render_mod (layoutEvent ls e).2 he.2
      · exact ihr.2 rep h1

/-- One tick keeps the held list modifier-only, and every report it
builds has bytes 1-7 zero. -/
theorem processTick_mod (st : SysState) (raw : Grid) (h : allMod st.layout.held) :
    allMod (processTick st raw).state.layout.held ∧
    ∀ rep ∈ (processTick st raw).reports, rep.drop 1 = List.replicate 7 0 := by
  have hae := applyEvents_mod (debEvents st.deb raw).2 st.layout st.usb h
  constructor
  · have hh : (processTick st raw).state.layout.held
        = (applyEvents st.layout st.usb (debEvents st.deb raw).2).1.held := rfl
    rw [hh]
    exact hae.1
  · intro rep hrep
    have hh : (processTick st raw).reports
        = (applyEvents st.layout st.usb (debEvents st.deb raw).2).2.2.1
          ++ [render (layoutTick
              (applyEvents st.layout st.usb (debEvents st.deb raw).2).1).2] := rfl
    rw [hh] at hrep
    rcases List.mem_append.mp hrep with h1 | h1
    · exact hae.2 rep h1
    · rw [List.mem_singleton.mp h1]
      exact render_mod _ hae.1

/-- Every reachable state holds only modifier keys. -/
theorem reaches_allMod (st : SysState) (h : Reaches st) : allMod st.layout.held := by
  induction h with
  | init =>
    intro k hk
    simp [initState] at hk
  | step st0 raw h0 ih => exact (processTick_mod st0 raw ih).1

/-- When the built report differs from the stored one, `send_report`
installs it and runs the write loop; the trace is the install section
followed by the write attempts. -/
theorem send_report_changed (keys : List KeyCode) (t : Transport)
    (responses : Nat → WriteRes) (fuel : Nat) (h : render keys ≠ t.stored) :
    send_report keys t responses fuel
      = ({ stored := render keys }, LockSec.setReportSec :: writeTrace responses fuel 0) := by
  simp [send_report, setKeyboardReport, h]

/-- When the built report equals the stored one, `send_report` performs
no write attempt at all. -/
theorem send_report_unchanged (keys : List KeyCode) (t : Transport)
    (responses : Nat → WriteRes) (fuel : Nat) (h : render keys = t.stored) :
    send_report keys t responses fuel
      = ({ stored := render keys }, [LockSec.setReportSec]) := by
  simp [send_report, setKeyboardReport, h]

/-! ## Claim theorems -/

/-- Claim C1: debounce threshold semantics.  For the debouncer built
with threshold 5: while raw equals the latched stable value the counter
resets to 0; while raw differs it is incremented; upon reaching the
threshold the stable bit flips, the event is emitted and the counter
resets; a step emits an event iff raw differs and four differing
samples already accumulated; five consecutive differing samples flip
the stable bit exactly at the fifth; and any shorter sample sequence
(counter plus length below the threshold) leaves the stable bit
unchanged and emits no event. -/
theorem debounce_threshold_semantics :
    (∀ (s : DKey) (r : Bool), r = s.stable → dstep s r = ({ s with count := 0 }, none)) ∧
    (∀ (s : DKey) (r : Bool), r ≠ s.stable → s.count + 1 < debounceThreshold →
      dstep s r = ({ s with count := s.count + 1 }, none)) ∧
    (∀ (s : DKey) (r : Bool), r ≠ s.stable → debounceThreshold ≤ s.count + 1 →
      dstep s r = (⟨r, 0⟩, some r)) ∧
    (∀ (s : DKey) (r : Bool), s.count ≤ 4 →
      ((dstep s r).2.isSome ↔ (r ≠ s.stable ∧ s.count = 4))) ∧
    (∀ st : Bool, drun ⟨st, 0⟩ (List.replicate 5 (!st))
      = (⟨!st, 0⟩, [none, none, none, none, some (!st)])) ∧
    (∀ (s : DKey) (raws : List Bool), s.count + raws.length < debounceThreshold →
      (drun s raws).1.stable = s.stable ∧ (drun s raws).2 = List.replicate raws.length none) := by
  refine ⟨?_, ?_, ?_, ?_, ?_, ?_⟩
  · intro s r h
    simp [dstep, h]
  · intro s r h h2
    simp [dstep, h, h2]
  · intro s r h h2
    simp [dstep, h, Nat.not_lt.mpr h2]
  · intro s r h
    by_cases hr : r = s.stable
    · simp [dstep, hr]
    · by_cases hc : s.count + 1 < debounceThreshold
      · simp only [debounceThreshold] at hc
        simp [dstep, hr, debounceThreshold, hc]
        omega
      · simp only [debounceThreshold] at hc
        simp [dstep, hr, debounceThreshold, hc]
        omega
  · intro st
    cases st <;> decide
  · intro s raws
    induction raws generalizing s with
    | nil =>
      intro _
      simp [drun]
    | cons r rs ih =>
      intro h
      simp only [List.length_cons] at h
      by_cases hr : r = s.stable
      · have ih2 := ih { s with count := 0 } (by simp; omega)
        simp [drun, dstep, hr, List.replicate_succ, ih2.1, ih2.2]
      · have hc : s.count + 1 < debounceThreshold := by omega
        have ih2 := ih { s with count := s.count + 1 } (by simp; omega)
        simp [drun, dstep, hr, hc, List.replicate_succ, ih2.1, ih2.2]

/-- Witness for claim C1 at concrete inputs: raw equal to stable resets
the counter; the fifth consecutive differing sample flips the stable
bit and emits the event; four differing samples emit nothing and leave
the stable bit unchanged. -/
theorem debounce_threshold_semantics_witness :
    dstep ⟨false, 0⟩ false = (⟨false, 0⟩, none) ∧
    dstep ⟨false, 4⟩ true = (⟨true, 0⟩, some true) ∧
    ((dstep ⟨false, 4⟩ true).2.isSome ↔ (true ≠ false ∧ (4 : Nat) = 4)) ∧
    drun ⟨false, 0⟩ (List.replicate 5 (!false))
      = (⟨!false, 0⟩, [none, none, none, none, some (!false)]) ∧
    ((drun ⟨false, 0⟩ [true, true, true, true]).1.stable = false ∧
      (drun ⟨false, 0⟩ [true, true, true, true]).2 = List.replicate 4 none) := by
  obtain ⟨h1, _, h3, h4, h5, h6⟩ := debounce_threshold_semantics
  exact ⟨h1 ⟨false, 0⟩ false rfl,
         h3 ⟨false, 4⟩ true (by decide) (by decide),
         h4 ⟨false, 4⟩ true (by decide),
         h5 false,
         h6 ⟨false, 0⟩ [true, true, true, true] (by decide)⟩

/-- Claim C2: Scenario A.  From the initial state, with matrix position
(0,0) read as pressed on every 1 kHz tick, the first four ticks emit no
event, the Press event fires at tick 5, the layout table maps (0,0) to
LShift, and the reports built at tick 5 have byte 0 equal to 0x02. -/
theorem scenario_a_end_to_end :
    (runScenario 5 initState (true, false)).map TickOut.events
      = [[], [], [], [], [Event.press 0 0]] ∧
    resolveAction initState.layout.stack 0 0 = some (Action.key KeyCode.LShift) ∧
    (runScenario 5 initState (true, false)).map TickOut.reports
      = [[List.replicate 8 0], [List.replicate 8 0], [List.replicate 8 0],
         [List.replicate 8 0],
         [[0x02, 0, 0, 0, 0, 0, 0, 0], [0x02, 0, 0, 0, 0, 0, 0, 0]]] := by
  decide

/-- Claim C5: scan-failure handling.  The matrix pins' error type is
`Infallible`, which has no values, so the scan's error branch can never
execute: every scan result is `ok`, and the tick handler always runs
the full pipeline on the scanned grid; the claim's conditional about an
error tick holds vacuously. -/
theorem scan_error_unreachable :
    (∀ e : Infallible, False) ∧
    ∀ (st : SysState) (res : Except Infallible Grid),
      ∃ g, res = Except.ok g ∧ tickHandler st res = processTick st g := by
  constructor
  · intro e
    cases e
  · intro st res
    cases res with
    | ok g => exact ⟨g, rfl, rfl⟩
    | error e => cases e

/-- Claim C7: report determinism.  Rendering is a pure function of the
held-key list: equal content in equal order yields byte-identical
reports, always exactly 8 bytes, with no other state involved. -/
theorem report_determinism (k1 k2 : List KeyCode) (h : k1 = k2) :
    render k1 = render k2 ∧ (render k1).length = 8 := by
  subst h
  exact ⟨rfl, render_length k1⟩

/-- Witness for claim C7 at a concrete held-key list. -/
theorem report_determinism_witness :
    render [KeyCode.A] = render [KeyCode.A] ∧ (render [KeyCode.A]).length = 8 :=
  report_determinism [KeyCode.A] [KeyCode.A] rfl

/-- Claim C8: tick idempotence on held keys.  `layout.tick()` never
changes the held-key list (contents and order) or the layer stack;
in this firmware no action is time-based, so no transition is ever
pending. -/
theorem layout_tick_idempotent_held (s : LayoutState) :
    (layoutTick s).1.held = s.held ∧ (layoutTick s).1.stack = s.stack ∧
      (layoutTick s).2 = s.held :=
  ⟨rfl, rfl, rfl⟩

/-- Claim C3 counterexample: the retried writes of `send_report` are
not kept inside one critical section.  With a transport that is busy on
the first write and accepts the second, the retried write runs under a
fresh lock acquisition: the trace holds two separate write critical
sections, refuting the claim's bound of one. -/
theorem send_report_same_section_counterexample : ¬ sameCriticalSectionRetry := by
  intro h
  have h2 := h [KeyCode.LShift] { stored := List.replicate 8 0 } busyOnce 10
  revert h2
  decide

/-- Claim C3 (amended): when the transport reports busy (a write
accepting 0 bytes), `send_report` retries the write until a write
returns something other than `Ok(0)` — performing exactly `n + 1` write
attempts when attempt `n` is the first non-busy answer — but each
attempt runs in its own critical section (the lock is released and
re-acquired between attempts: the trace holds one lock acquisition per
attempt after the install section), and the loop has no retry cap: on a
transport that stays busy forever, every finite unrolling of the loop
is still retrying. -/
theorem send_report_retry_amended (responses : Nat → WriteRes) (n fuel : Nat)
    (keys : List KeyCode) (t : Transport)
    (hbusy : ∀ j, j < n → responses j = WriteRes.ok 0)
    (hacc : responses n ≠ WriteRes.ok 0)
    (hfuel : n < fuel)
    (hchanged : render keys ≠ t.stored) :
    (send_report keys t responses fuel).2.length = n + 2 ∧
    (∀ s ∈ (send_report keys t responses fuel).2.tail, isWriteSec s = true) ∧
    ∀ responses2 : Nat → WriteRes, (∀ j, responses2 j = WriteRes.ok 0) →
      ∀ (f i : Nat), writeTrace responses2 f i
        = List.replicate f (LockSec.writeSec (WriteRes.ok 0)) := by
  rw [send_report_changed keys t responses fuel hchanged]
  refine ⟨?_, ?_, fun r2 h2 => writeTrace_always_busy r2 h2⟩
  · have hl := writeTrace_first_accept responses n fuel 0 hfuel
      (fun j hj => by simpa using hbusy j hj) (by simpa using hacc)
    simp only [List.length_cons, hl]
  · intro s hs
    exact writeTrace_all_write responses fuel 0 s hs

/-- Witness for the amended claim C3: with a transport busy exactly
once, `send_report` makes two write attempts, three critical sections
in all, and every section after the install is a write attempt. -/
theorem send_report_retry_amended_witness :
    (send_report [KeyCode.LShift] { stored := List.replicate 8 0 } busyOnce 10).2.length = 3 ∧
    ((send_report [KeyCode.LShift] { stored := List.replicate 8 0 } busyOnce 10).2.tail.all
      isWriteSec) = true := by
  have h := send_report_retry_amended busyOnce 1 10 [KeyCode.LShift]
    { stored := List.replicate 8 0 }
    (fun j hj => by
      have hj0 : j = 0 := by omega
      subst hj0
      rfl)
    (by decide) (by decide) (by decide)
  refine ⟨by simpa using h.1, ?_⟩
  rw [List.all_eq_true]
  intro s hs
  exact h.2.1 s hs

/-- Claim C9: duplicate-report suppression.  The write loop of
`send_report` is entered iff installing the freshly built report via
`set_keyboard_report` reports that it differs from the previously
stored report; when the new report equals the stored one, no write
attempt occurs at all. -/
theorem duplicate_report_suppression (keys : List KeyCode) (t : Transport)
    (responses : Nat → WriteRes) (fuel : Nat) (hf : 0 < fuel) :
    ((send_report keys t responses fuel).2.filter isWriteSec ≠ [] ↔
      render keys ≠ t.stored) ∧
    (render keys = t.stored →
      (send_report keys t responses fuel).2 = [LockSec.setReportSec]) := by
  by_cases hch : render keys = t.stored
  · rw [send_report_unchanged keys t responses fuel hch]
    constructor
    · simp [isWriteSec, hch]
    · intro _
      rfl
  · rw [send_report_changed keys t responses fuel hch]
    have hne := writeTrace_ne_nil responses fuel 0 hf
    have hfil : (writeTrace responses fuel 0).filter isWriteSec
        = writeTrace responses fuel 0 :=
      List.filter_eq_self.mpr (writeTrace_all_write responses fuel 0)
    constructor
    · simp [List.filter_cons, isWriteSec, hfil, hne, hch]
    · intro hc
      exact absurd hc hch

/-- Witness for claim C9: with a fresh non-zero report against an
all-zero stored report, the write loop is entered; the iff and the
no-write implication hold at this concrete input. -/
theorem duplicate_report_suppression_witness :
    (((send_report [KeyCode.LShift] { stored := List.replicate 8 0 } busyOnce 1).2.filter
        isWriteSec ≠ []) ↔
      render [KeyCode.LShift] ≠ ({ stored := List.replicate 8 0 } : Transport).stored) ∧
    (render [KeyCode.LShift] = ({ stored := List.replicate 8 0 } : Transport).stored →
      (send_report [KeyCode.LShift] { stored := List.replicate 8 0 } busyOnce 1).2
        = [LockSec.setReportSec]) :=
  duplicate_report_suppression [KeyCode.LShift] { stored := List.replicate 8 0 } busyOnce 1
    (by decide)

/-- Claim C4: overflow policy.  For every held-key list, the rendered
report is always exactly 8 bytes (never malformed, no error), the
non-modifier slots carry no duplicates, and a non-modifier code occupies
a slot iff its first-seen position among the distinct non-modifier
codes is below the 6-slot capacity — so the oldest-accepted keys retain
their slots and presses beyond the limit are dropped. -/
theorem overflow_drop_policy (keys : List KeyCode) :
    (render keys).length = 8 ∧
    (slots keys).Nodup ∧
    ∀ c ∈ nonmodCodes keys,
      (c ∈ slots keys ↔ (dedupFirst (nonmodCodes keys)).indexOf c < 6) := by
  refine ⟨render_length keys, ?_, ?_⟩
  · exact (List.take_sublist 6 _).nodup (nodup_dedupFirst _)
  · intro c hc
    have hcd : c ∈ dedupFirst (nonmodCodes keys) := (mem_dedupFirst _ c).mpr hc
    exact mem_take_iff_indexOf _ c hcd 6

/-- Witness for claim C4: with seven distinct letters held, the report
is 8 bytes and the seventh letter's slot membership matches its
first-seen index being below 6 (it is index 6, hence dropped). -/
theorem overflow_drop_policy_witness :
    (render [KeyCode.A, KeyCode.B, KeyCode.C, KeyCode.D, KeyCode.E, KeyCode.F,
      KeyCode.G]).length = 8 ∧
    ((KeyCode.code KeyCode.G ∈ slots [KeyCode.A, KeyCode.B, KeyCode.C, KeyCode.D,
        KeyCode.E, KeyCode.F, KeyCode.G]) ↔
      (dedupFirst (nonmodCodes [KeyCode.A, KeyCode.B, KeyCode.C, KeyCode.D, KeyCode.E,
        KeyCode.F, KeyCode.G])).indexOf (KeyCode.code KeyCode.G) < 6) := by
  have h := overflow_drop_policy [KeyCode.A, KeyCode.B, KeyCode.C, KeyCode.D, KeyCode.E,
    KeyCode.F, KeyCode.G]
  exact ⟨h.1, h.2.2 (KeyCode.code KeyCode.G) (by decide)⟩

/-- Claim C6: pipeline ordering.  In every tick-handler invocation, the
operations applied to the layout engine are exactly the debouncer's
events for that tick, in order, followed by `layout.tick()`; and those
events are in strictly increasing row-major key order. -/
theorem pipeline_ordering (st : SysState) (raw : Grid) :
    (processTick st raw).ops
      = (processTick st raw).events.map PipeOp.applyEvent ++ [PipeOp.layoutTickOp] ∧
    (processTick st raw).events.Pairwise (fun a b => keyIdx a < keyIdx b) := by
  constructor
  · simp [processTick, applyEvents_ops]
  · have hev : (processTick st raw).events
        = ((dstep st.deb.1 raw.1).2.map (evAt 0 0)).toList
          ++ ((dstep st.deb.2 raw.2).2.map (evAt 0 1)).toList := rfl
    rw [hev]
    cases h0 : (dstep st.deb.1 raw.1).2 with
    | none =>
      cases h1 : (dstep st.deb.2 raw.2).2 with
      | none => simp
      | some b1 => simp
    | some b0 =>
      cases h1 : (dstep st.deb.2 raw.2).2 with
      | none => simp
      | some b1 => cases b0 <;> cases b1 <;> decide

/-- Claim C10: modifier-only report invariant.  Since every action in
the compiled `LAYERS` table is a modifier key code, every reachable
state holds only modifier keys, and every report the firmware builds
and submits has bytes 1 through 7 equal to zero — only the modifier
byte 0 varies. -/
theorem modifier_only_reports (st : SysState) (raw : Grid) (h : Reaches st) :
    (∀ k ∈ st.layout.held, k.isModifier = true) ∧
    ∀ rep ∈ (processTick st raw).reports, rep.drop 1 = List.replicate 7 0 := by
  have hm := reaches_allMod st h
  exact ⟨hm, (processTick_mod st raw hm).2⟩

/-- Witness for claim C10 at the initial state: the first tick builds
exactly the all-zero report, whose bytes 1-7 are zero. -/
theorem modifier_only_reports_witness :
    (processTick initState (true, false)).reports = [List.replicate 8 0] ∧
    (List.replicate 8 0).drop 1 = List.replicate 7 0 := by
  refine ⟨by decide, ?_⟩
  exact (modifier_only_reports initState (true, false) Reaches.init).2
    (List.replicate 8 0) (by decide)

end LT3
